import Mathlib

/-
Verification of the FSMgine transition engine.

Shallow embedding of the core sources:
  - include/FSMgine/Transition.hpp   (class Transition)
  - include/FSMgine/FSM.hpp          (class FSM: registry, process, state primitives)
  - src/StringInterner.cpp           (class StringInterner)

Modelling conventions:
  - State handles are Lean `String`s.  The C++ handles are interned
    `std::string_view`s whose content equality coincides with handle
    equality (proved separately about the interner model), so plain
    string equality is a faithful model of every handle comparison in
    FSM.hpp.
  - Predicates and actions are `std::function` values; they are modelled
    as opaque tokens (type parameters `P` and `A`).  A separate
    environment `env : P → E → Bool` gives each predicate token its
    boolean result on an event.  Every invocation of a predicate or an
    action is recorded in an effect trace, so "this callback was (not)
    invoked" becomes a statement about the trace.
  - `std::unordered_map<std::string_view, StateData>` is modelled as an
    association list with unique keys reached only through
    `getOrCreateState`; map lookup is `findState`.
  - C++ exceptions become `Except FSMError`.  All throws in FSM.hpp
    happen before any mutation of the FSM object, so an error result
    leaves the model's machine value unreturned/unchanged.
-/

namespace fsmgine

/-- Errors thrown by FSM.hpp: `FSMStateNotFoundError`,
`FSMNotInitializedError`, `FSMInvalidStateError`. -/
inductive FSMError where
  | stateNotFound (state : String)
  | notInitialized
  | invalidState (msg : String)
deriving DecidableEq, Repr

/-- Observable effects of one FSM operation, in execution order:
a predicate invocation, a transition action, an on-exit action,
an on-enter action, or the assignment `current_state_ = s`. -/
inductive Effect (P A : Type) where
  | evalPred (p : P)
  | transAct (a : A)
  | exitAct (a : A)
  | enterAct (a : A)
  | setState (s : String)
deriving DecidableEq, Repr

variable {E P A : Type}

/-- `Transition<TEvent>` (Transition.hpp): ordered predicate tokens,
ordered action tokens, and a target handle (`""` = unset, matching the
default-constructed `std::string_view target_state_`). -/
structure Transition (P A : Type) where
  predicates : List P
  actions : List A
  target_state : String
deriving DecidableEq, Repr

/-- The predicate loop of `Transition::predicatesPass`: evaluate
left-to-right, stop at the first `false`.  Also returns the list of
predicate tokens actually invoked, in order. -/
def evalPreds (env : P → E → Bool) (e : E) : List P → Bool × List P
  | [] => (true, [])
  | p :: ps =>
    if env p e then
      ((evalPreds env e ps).1, p :: (evalPreds env e ps).2)
    else
      (false, [p])

/-- `Transition::predicatesPass` (Transition.hpp lines 122-134):
`true` on an empty predicate list, else the conjunction of all
predicates with short-circuit. -/
def Transition.predicatesPass (t : Transition P A) (env : P → E → Bool) (e : E) : Bool :=
  if t.predicates.isEmpty then true
  else (evalPreds env e t.predicates).1

/-- The trace of predicate invocations `process` performs while guard-checking
one transition. -/
def predTrace (env : P → E → Bool) (e : E) (t : Transition P A) : List (Effect P A) :=
  ((evalPreds env e t.predicates).2).map Effect.evalPred

/-- `FSM::StateData` (FSM.hpp lines 101-111). -/
structure StateData (P A : Type) where
  on_enter_actions : List A
  on_exit_actions : List A
  transitions : List (Transition P A)
deriving DecidableEq, Repr

/-- A default-constructed `StateData`. -/
def StateData.empty : StateData P A := ⟨[], [], []⟩

/-- Lookup in the `states_` map (`std::unordered_map::find`). -/
def findState (states : List (String × StateData P A)) (s : String) :
    Option (StateData P A) :=
  match states with
  | [] => none
  | kv :: rest => if kv.1 = s then some kv.2 else findState rest s

/-- `FSM<TEvent>` (FSM.hpp): the registry, the current-state handle
(default-constructed to the empty view), and `has_initial_state_`. -/
structure FSM (P A : Type) where
  states : List (String × StateData P A)
  current_state : String
  has_initial_state : Bool
deriving DecidableEq, Repr

/-- `FSM()` default construction. -/
def FSM.init : FSM P A := ⟨[], "", false⟩

/-- `FSM::getOrCreateState` (FSM.hpp lines 399-407): find, else emplace a
default `StateData` under the key. -/
def getOrCreateState (states : List (String × StateData P A)) (s : String) :
    List (String × StateData P A) :=
  match findState states s with
  | some _ => states
  | none => states ++ [(s, StateData.empty)]

/-- Mutation through the reference returned by `getOrCreateState` /
`find`: rewrite the record stored under key `s`. -/
def updateState (states : List (String × StateData P A)) (s : String)
    (f : StateData P A → StateData P A) : List (String × StateData P A) :=
  states.map (fun kv => if kv.1 = s then (kv.1, f kv.2) else kv)

/-- `FSM::executeOnExitActions` (FSM.hpp lines 410-417): look the state up,
run its on-exit actions in order, silently do nothing if absent. -/
def executeOnExitActions (states : List (String × StateData P A)) (s : String) :
    List (Effect P A) :=
  match findState states s with
  | some sd => sd.on_exit_actions.map Effect.exitAct
  | none => []

/-- `FSM::executeOnEnterActions` (FSM.hpp lines 420-427). -/
def executeOnEnterActions (states : List (String × StateData P A)) (s : String) :
    List (Effect P A) :=
  match findState states s with
  | some sd => sd.on_enter_actions.map Effect.enterAct
  | none => []

/-- `FSM::addTransition` (FSM.hpp lines 348-365): create the from-state
record, create the target record when the target handle is non-empty,
then push the transition onto the from-state's list. -/
def FSM.addTransition (m : FSM P A) (from_state : String) (t : Transition P A) :
    FSM P A :=
  ⟨updateState
      (if t.target_state = "" then getOrCreateState m.states from_state
       else getOrCreateState (getOrCreateState m.states from_state) t.target_state)
      from_state
      (fun sd => ⟨sd.on_enter_actions, sd.on_exit_actions, sd.transitions ++ [t]⟩),
    m.current_state, m.has_initial_state⟩

/-- `FSM::addOnEnterAction` (FSM.hpp lines 368-381): create the state
record, then append the action only when it is non-null (`if (action)`). -/
def FSM.addOnEnterAction (m : FSM P A) (s : String) (a : Option A) : FSM P A :=
  match a with
  | none => ⟨getOrCreateState m.states s, m.current_state, m.has_initial_state⟩
  | some act =>
    ⟨updateState (getOrCreateState m.states s) s
        (fun sd => ⟨sd.on_enter_actions ++ [act], sd.on_exit_actions, sd.transitions⟩),
      m.current_state, m.has_initial_state⟩

/-- `FSM::addOnExitAction` (FSM.hpp lines 384-397). -/
def FSM.addOnExitAction (m : FSM P A) (s : String) (a : Option A) : FSM P A :=
  match a with
  | none => ⟨getOrCreateState m.states s, m.current_state, m.has_initial_state⟩
  | some act =>
    ⟨updateState (getOrCreateState m.states s) s
        (fun sd => ⟨sd.on_enter_actions, sd.on_exit_actions ++ [act], sd.transitions⟩),
      m.current_state, m.has_initial_state⟩

/-- `FSM::setInitialState` (FSM.hpp lines 227-253): throw
`FSMInvalidStateError` when the handle is not in the registry; otherwise
assign `current_state_`, set `has_initial_state_`, and run the state's
on-enter actions with a dummy event. -/
def FSM.setInitialState (m : FSM P A) (s : String) :
    Except FSMError (FSM P A) × List (Effect P A) :=
  match findState m.states s with
  | none =>
    (.error (.invalidState ("Cannot set initial state to undefined state: " ++ s)), [])
  | some _ =>
    (.ok { m with current_state := s, has_initial_state := true },
      Effect.setState s :: executeOnEnterActions m.states s)

/-- `FSM::setCurrentState` (FSM.hpp lines 256-286): throw when the handle
is not in the registry; run the old state's on-exit actions only when the
machine is initialized and the handle differs from the current one; then
assign and unconditionally run the new state's on-enter actions. -/
def FSM.setCurrentState (m : FSM P A) (s : String) :
    Except FSMError (FSM P A) × List (Effect P A) :=
  match findState m.states s with
  | none =>
    (.error (.invalidState ("Cannot set current state to undefined state: " ++ s)), [])
  | some _ =>
    (.ok { m with current_state := s, has_initial_state := true },
      (if m.has_initial_state ∧ m.current_state ≠ s then
          executeOnExitActions m.states m.current_state
        else []) ++
        Effect.setState s :: executeOnEnterActions m.states s)

/-- `FSM::getCurrentState` (FSM.hpp lines 335-345). -/
def FSM.getCurrentState (m : FSM P A) : Except FSMError String :=
  if !m.has_initial_state then .error .notInitialized
  else .ok m.current_state

/-- The transition loop of `FSM::process` (FSM.hpp lines 305-331): scan in
order; on the first transition whose predicates pass, check the target
handle is non-empty and registered (throwing before anything runs),
execute the transition's actions, and run on-exit / assignment / on-enter
only when the state actually changes; stop scanning. -/
def processLoop (env : P → E → Bool) (m : FSM P A) (e : E) :
    List (Transition P A) → Except FSMError (Bool × FSM P A) × List (Effect P A)
  | [] => (.ok (false, m), [])
  | t :: ts =>
    if (evalPreds env e t.predicates).1 then
      if t.target_state = "" then
        (.error (.invalidState "Transition has no target state"), predTrace env e t)
      else
        match findState m.states t.target_state with
        | none => (.error (.stateNotFound t.target_state), predTrace env e t)
        | some _ =>
          if m.current_state = t.target_state then
            (.ok (true, m), predTrace env e t ++ t.actions.map Effect.transAct)
          else
            (.ok (true, { m with current_state := t.target_state }),
              predTrace env e t ++ t.actions.map Effect.transAct ++
                executeOnExitActions m.states m.current_state ++
                Effect.setState t.target_state ::
                  executeOnEnterActions m.states t.target_state)
    else
      ((processLoop env m e ts).1, predTrace env e t ++ (processLoop env m e ts).2)

/-- `FSM::process` (FSM.hpp lines 289-332): throw when uninitialized,
throw the internal-consistency error when the current handle is missing
from the registry, else run the transition loop. -/
def FSM.process (m : FSM P A) (env : P → E → Bool) (e : E) :
    Except FSMError (Bool × FSM P A) × List (Effect P A) :=
  if !m.has_initial_state then (.error .notInitialized, [])
  else
    match findState m.states m.current_state with
    | none => (.error (.stateNotFound m.current_state), [])
    | some sd => processLoop env m e sd.transitions

/-
Thread-safe mode (FSMGINE_MULTI_THREADED).  In FSM.hpp every public
entry point opens with `std::unique_lock<std::mutex> lock(mutex_);` and
the RAII guard releases the mutex at every exit (return or throw).  We
model this as a combined event trace: one lock acquisition, then the
body's effects, then one release.
-/

/-- One event in a thread-safe-mode trace: the exclusive mutex
acquisition, its release, or a body effect. -/
inductive MTEv (P A : Type) where
  | lockAcquire
  | lockRelease
  | eff (f : Effect P A)
deriving DecidableEq, Repr

/-- The RAII `std::unique_lock` pattern of FSM.hpp: acquire on entry,
release on every exit path. -/
def lockWrap (body : List (Effect P A)) : List (MTEv P A) :=
  MTEv.lockAcquire :: body.map MTEv.eff ++ [MTEv.lockRelease]

/-- `FSM::process` built with FSMGINE_MULTI_THREADED (FSM.hpp lines
289-292): the unique lock is taken before the initialization check and
held until the function returns or throws. -/
def FSM.processMT (m : FSM P A) (env : P → E → Bool) (e : E) :
    Except FSMError (Bool × FSM P A) × List (MTEv P A) :=
  ((m.process env e).1, lockWrap (m.process env e).2)

/-- `FSM::setInitialState` in thread-safe mode (FSM.hpp lines 228-230). -/
def FSM.setInitialStateMT (m : FSM P A) (s : String) :
    Except FSMError (FSM P A) × List (MTEv P A) :=
  ((m.setInitialState s).1, lockWrap (m.setInitialState s).2)

/-- `FSM::setCurrentState` in thread-safe mode (FSM.hpp lines 257-259). -/
def FSM.setCurrentStateMT (m : FSM P A) (s : String) :
    Except FSMError (FSM P A) × List (MTEv P A) :=
  ((m.setCurrentState s).1, lockWrap (m.setCurrentState s).2)

/-- `FSM::getCurrentState` in thread-safe mode (FSM.hpp lines 336-338);
its body performs no effects. -/
def FSM.getCurrentStateMT (m : FSM P A) :
    Except FSMError String × List (MTEv P A) :=
  (m.getCurrentState, lockWrap [])

/-
StringInterner (StringInterner.hpp / src/StringInterner.cpp).  The
backing `std::unordered_set<std::string>` is modelled as the list of
stored strings in insertion order; a handle (`std::string_view` into a
stored string) is modelled as the index of its backing string, so
"identical handle / same backing storage" is index equality.
-/

/-- Position of the stored copy of `s` in the backing store, if present. -/
def findIndex (store : List String) (s : String) : Option Nat :=
  match store with
  | [] => none
  | x :: xs => if x = s then some 0 else (findIndex xs s).map Nat.succ

/-- `StringInterner`: the set of interned strings, in insertion order. -/
structure StringInterner where
  interned_strings : List String
deriving DecidableEq, Repr

/-- A freshly constructed interner. -/
def StringInterner.emptyInterner : StringInterner := ⟨[]⟩

/-- `StringInterner::intern` (src/StringInterner.cpp lines 10-26):
`interned_strings_.insert(str)` returns the iterator of the stored copy,
whether or not the insert took place; the returned `string_view` points
at that stored copy.  The model returns the stored copy's index as the
handle, plus the updated interner. -/
def StringInterner.intern (si : StringInterner) (s : String) :
    Nat × StringInterner :=
  match findIndex si.interned_strings s with
  | some i => (i, si)
  | none => (si.interned_strings.length, ⟨si.interned_strings ++ [s]⟩)

/-- The text a handle refers to (dereferencing the `string_view`). -/
def StringInterner.handleText (si : StringInterner) (h : Nat) : Option String :=
  si.interned_strings.get? h

/-
Public-API reachability, for the machine-level invariant.  Each `Op` is
one call on the public surface of FSM.hpp; a call that throws leaves the
machine as it was (all throws in FSM.hpp occur before any mutation).
-/

/-- One public-API call on an `FSM`. -/
inductive Op (E P A : Type) where
  | addTransition (from_state : String) (t : Transition P A)
  | addOnEnter (s : String) (a : Option A)
  | addOnExit (s : String) (a : Option A)
  | setInitialState (s : String)
  | setCurrentState (s : String)
  | process (e : E)

/-- Apply one public-API call; on a thrown error the machine is
unchanged. -/
def applyOp (env : P → E → Bool) (m : FSM P A) : Op E P A → FSM P A
  | .addTransition f t => m.addTransition f t
  | .addOnEnter s a => m.addOnEnterAction s a
  | .addOnExit s a => m.addOnExitAction s a
  | .setInitialState s =>
    match (m.setInitialState s).1 with
    | .ok m2 => m2
    | .error _ => m
  | .setCurrentState s =>
    match (m.setCurrentState s).1 with
    | .ok m2 => m2
    | .error _ => m
  | .process e =>
    match (m.process env e).1 with
    | .ok r => r.2
    | .error _ => m

/-- The machine reached from a default-constructed `FSM` by a sequence of
public-API calls. -/
def runOps (env : P → E → Bool) (ops : List (Op E P A)) : FSM P A :=
  ops.foldl (applyOp env) FSM.init

/-- The trace of predicate invocations produced by guard-checking a list of
transitions that all fail. -/
def failTraces (env : P → E → Bool) (e : E) : List (Transition P A) → List (Effect P A)
  | [] => []
  | t :: ts => predTrace env e t ++ failTraces env e ts

/-- The machine-level invariant: once initialized, the current-state
handle is a key of the registry. -/
def goodFSM (m : FSM P A) : Prop :=
  m.has_initial_state = true → (findState m.states m.current_state).isSome

/-
Concrete fixtures used to instantiate the theorems at executable inputs.
Predicate and action tokens are naturals; a predicate token p passes on
event e exactly when p = e.
-/

/-- Concrete predicate environment on natural-number tokens and events. -/
def envW : Nat → Nat → Bool := fun p e => p == e

/-- A transition guarded by token 2 (fails on event 1). -/
def tW1 : Transition Nat Nat := ⟨[2], [100], "B"⟩

/-- A transition guarded by token 1 (passes on event 1), into B. -/
def tW2 : Transition Nat Nat := ⟨[1], [200], "B"⟩

/-- A transition guarded by token 1 (would pass on event 1), into C. -/
def tW3 : Transition Nat Nat := ⟨[1], [300], "C"⟩

/-- A transition guarded by token 1 into an unregistered state. -/
def tW4 : Transition Nat Nat := ⟨[1], [400], "GHOST"⟩

/-- A self-transition on A guarded by token 1. -/
def tW5 : Transition Nat Nat := ⟨[1], [500], "A"⟩

/-- An initialized machine in state A with transitions tW1, tW2, tW3 out
of A and an on-enter action on B. -/
def mC1 : FSM Nat Nat :=
  ⟨[("A", ⟨[], [], [tW1, tW2, tW3]⟩), ("B", ⟨[7], [], []⟩), ("C", ⟨[], [], []⟩)],
    "A", true⟩

/-- An initialized machine in state A with a self-transition and on-enter
and on-exit actions on A. -/
def mC2 : FSM Nat Nat := ⟨[("A", ⟨[7], [8], [tW5]⟩)], "A", true⟩

/-- An initialized machine in state A whose first matching transition
points at an unregistered state. -/
def mC3 : FSM Nat Nat := ⟨[("A", ⟨[], [9], [tW1, tW4]⟩)], "A", true⟩

/-- An initialized machine in state A none of whose transitions match
event 5. -/
def mC4 : FSM Nat Nat := ⟨[("A", ⟨[], [], [tW1, tW2]⟩), ("B", ⟨[], [], []⟩)], "A", true⟩

/-- A public-API call sequence that creates state A and initializes to it. -/
def opsW : List (Op Nat Nat Nat) :=
  [Op.addOnEnter "A" none, Op.setInitialState "A"]

/-
Supporting lemmas.
-/

theorem evalPreds_fst (env : P → E → Bool) (e : E) :
    ∀ ps : List P, (evalPreds env e ps).1 = ps.all (fun p => env p e) := by
  intro ps
  induction ps with
  | nil => rfl
  | cons p ps ih => cases h : env p e <;> simp [evalPreds, h, ih]

theorem evalPreds_mem (env : P → E → Bool) (e : E) :
    ∀ (ps : List P) (q : P), q ∈ (evalPreds env e ps).2 → q ∈ ps := by
  intro ps
  induction ps with
  | nil => intro q hq; simp [evalPreds] at hq
  | cons p ps ih =>
    intro q hq
    cases h : env p e <;> simp [evalPreds, h] at hq
    · simp [hq]
    · rcases hq with hq | hq
      · simp [hq]
      · exact List.mem_cons_of_mem p (ih q hq)

theorem evalPreds_all_true (env : P → E → Bool) (e : E) :
    ∀ ps : List P, (∀ p ∈ ps, env p e = true) → evalPreds env e ps = (true, ps) := by
  intro ps
  induction ps with
  | nil => intro _; rfl
  | cons p ps ih =>
    intro h
    have hp : env p e = true := h p (by simp)
    have hps := ih (fun q hq => h q (List.mem_cons_of_mem p hq))
    simp [evalPreds, hp, hps]

theorem evalPreds_first_false (env : P → E → Bool) (e : E) (p : P)
    (hp : env p e = false) :
    ∀ qs rs : List P, (∀ q ∈ qs, env q e = true) →
      evalPreds env e (qs ++ p :: rs) = (false, qs ++ [p]) := by
  intro qs
  induction qs with
  | nil => intro rs _; simp [evalPreds, hp]
  | cons q qs ih =>
    intro rs h
    have hq : env q e = true := h q (by simp)
    have hqs := ih rs (fun x hx => h x (List.mem_cons_of_mem q hx))
    simp [evalPreds, hq, hqs]

theorem predicatesPass_eq_evalPreds (t : Transition P A) (env : P → E → Bool) (e : E) :
    t.predicatesPass env e = (evalPreds env e t.predicates).1 := by
  cases h : t.predicates with
  | nil => simp [Transition.predicatesPass, h, evalPreds]
  | cons p ps => simp [Transition.predicatesPass, h]

theorem predTrace_mem (env : P → E → Bool) (e : E) (t : Transition P A)
    (ev : Effect P A) (h : ev ∈ predTrace env e t) :
    ∃ p, ev = Effect.evalPred p ∧ p ∈ t.predicates := by
  simp only [predTrace, List.mem_map] at h
  obtain ⟨p, hp, rfl⟩ := h
  exact ⟨p, rfl, evalPreds_mem env e _ p hp⟩

theorem findState_append_of_some (st l : List (String × StateData P A)) (s : String)
    (v : StateData P A) (h : findState st s = some v) :
    findState (st ++ l) s = some v := by
  induction st with
  | nil => simp [findState] at h
  | cons kv rest ih =>
    by_cases hk : kv.1 = s
    · simp [findState, hk] at h ⊢; exact h
    · simp [findState, hk] at h ⊢; exact ih h

theorem findState_append_of_none (st l : List (String × StateData P A)) (s : String)
    (h : findState st s = none) :
    findState (st ++ l) s = findState l s := by
  induction st with
  | nil => simp
  | cons kv rest ih =>
    by_cases hk : kv.1 = s
    · simp [findState, hk] at h
    · simp [findState, hk] at h ⊢; exact ih h

theorem findState_getOrCreateState_self (st : List (String × StateData P A)) (s : String) :
    (findState (getOrCreateState st s) s).isSome := by
  unfold getOrCreateState
  cases h : findState st s with
  | some v => simp [h]
  | none =>
    rw [findState_append_of_none st _ s h]
    simp [findState]

theorem findState_getOrCreateState_mono (st : List (String × StateData P A))
    (s s' : String) (h : (findState st s').isSome) :
    findState (getOrCreateState st s) s' = findState st s' := by
  unfold getOrCreateState
  cases hfs : findState st s with
  | some v => rfl
  | none =>
    obtain ⟨v, hv⟩ := Option.isSome_iff_exists.mp h
    rw [findState_append_of_some st _ s' v hv, hv]

theorem getOrCreateState_isSome_mono (st : List (String × StateData P A))
    (s s' : String) (h : (findState st s').isSome) :
    (findState (getOrCreateState st s) s').isSome := by
  rw [findState_getOrCreateState_mono st s s' h]; exact h

theorem findState_updateState_self (st : List (String × StateData P A)) (s : String)
    (f : StateData P A → StateData P A) :
    findState (updateState st s f) s = (findState st s).map f := by
  induction st with
  | nil => rfl
  | cons kv rest ih =>
    simp only [updateState, List.map_cons] at ih ⊢
    by_cases hk : kv.1 = s
    · simp [findState, hk]
    · simp [findState, hk, ih]

theorem findState_updateState_other (st : List (String × StateData P A))
    (s s' : String) (f : StateData P A → StateData P A) (hne : s' ≠ s) :
    findState (updateState st s f) s' = findState st s' := by
  have hs : ¬ (s = s') := fun h2 => hne h2.symm
  induction st with
  | nil => rfl
  | cons kv rest ih =>
    simp only [updateState, List.map_cons] at ih ⊢
    by_cases hk : kv.1 = s
    · simp [findState, hk, hs, ih]
    · by_cases hk2 : kv.1 = s'
      · simp [findState, hk, hk2, hne]
      · simp [findState, hk, hk2, ih]

theorem updateState_isSome (st : List (String × StateData P A)) (s : String)
    (f : StateData P A → StateData P A) (s' : String) :
    (findState (updateState st s f) s').isSome = (findState st s').isSome := by
  by_cases hs : s' = s
  · subst hs
    rw [findState_updateState_self]
    cases findState st s' <;> simp
  · rw [findState_updateState_other st s s' f hs]

theorem addTransition_states (m : FSM P A) (fs : String) (t : Transition P A) :
    (m.addTransition fs t).states =
      updateState
        (if t.target_state = "" then getOrCreateState m.states fs
         else getOrCreateState (getOrCreateState m.states fs) t.target_state)
        fs
        (fun sd => ⟨sd.on_enter_actions, sd.on_exit_actions, sd.transitions ++ [t]⟩) := rfl

theorem addOnEnterAction_states (m : FSM P A) (s : String) (a : A) :
    (m.addOnEnterAction s (some a)).states =
      updateState (getOrCreateState m.states s) s
        (fun sd => ⟨sd.on_enter_actions ++ [a], sd.on_exit_actions, sd.transitions⟩) := rfl

theorem addOnExitAction_states (m : FSM P A) (s : String) (a : A) :
    (m.addOnExitAction s (some a)).states =
      updateState (getOrCreateState m.states s) s
        (fun sd => ⟨sd.on_enter_actions, sd.on_exit_actions ++ [a], sd.transitions⟩) := rfl

theorem addTransition_isSome_mono (m : FSM P A) (fs : String) (t : Transition P A)
    (s' : String) (h : (findState m.states s').isSome) :
    (findState (m.addTransition fs t).states s').isSome := by
  rw [addTransition_states, updateState_isSome]
  by_cases ht : t.target_state = ""
  · rw [if_pos ht]
    exact getOrCreateState_isSome_mono _ _ _ h
  · rw [if_neg ht]
    exact getOrCreateState_isSome_mono _ _ _ (getOrCreateState_isSome_mono _ _ _ h)

theorem addOnEnterAction_isSome_mono (m : FSM P A) (s : String) (a : Option A)
    (s' : String) (h : (findState m.states s').isSome) :
    (findState (m.addOnEnterAction s a).states s').isSome := by
  cases a with
  | none => exact getOrCreateState_isSome_mono _ _ _ h
  | some act =>
    rw [addOnEnterAction_states, updateState_isSome]
    exact getOrCreateState_isSome_mono _ _ _ h

theorem addOnExitAction_isSome_mono (m : FSM P A) (s : String) (a : Option A)
    (s' : String) (h : (findState m.states s').isSome) :
    (findState (m.addOnExitAction s a).states s').isSome := by
  cases a with
  | none => exact getOrCreateState_isSome_mono _ _ _ h
  | some act =>
    rw [addOnExitAction_states, updateState_isSome]
    exact getOrCreateState_isSome_mono _ _ _ h

theorem addTransition_creates_from (m : FSM P A) (fs : String) (t : Transition P A) :
    (findState (m.addTransition fs t).states fs).isSome := by
  rw [addTransition_states, updateState_isSome]
  by_cases ht : t.target_state = ""
  · rw [if_pos ht]
    exact findState_getOrCreateState_self _ _
  · rw [if_neg ht]
    exact getOrCreateState_isSome_mono _ _ _ (findState_getOrCreateState_self _ _)

theorem addTransition_creates_target (m : FSM P A) (fs : String) (t : Transition P A)
    (ht : t.target_state ≠ "") :
    (findState (m.addTransition fs t).states t.target_state).isSome := by
  rw [addTransition_states, updateState_isSome, if_neg ht]
  exact findState_getOrCreateState_self _ _

theorem addOnEnterAction_creates (m : FSM P A) (s : String) (a : Option A) :
    (findState (m.addOnEnterAction s a).states s).isSome := by
  cases a with
  | none => exact findState_getOrCreateState_self _ _
  | some act =>
    rw [addOnEnterAction_states, updateState_isSome]
    exact findState_getOrCreateState_self _ _

theorem addOnExitAction_creates (m : FSM P A) (s : String) (a : Option A) :
    (findState (m.addOnExitAction s a).states s).isSome := by
  cases a with
  | none => exact findState_getOrCreateState_self _ _
  | some act =>
    rw [addOnExitAction_states, updateState_isSome]
    exact findState_getOrCreateState_self _ _

theorem executeOnExitActions_mem (st : List (String × StateData P A)) (s : String)
    (ev : Effect P A) (h : ev ∈ executeOnExitActions st s) :
    ∃ a, ev = Effect.exitAct a := by
  unfold executeOnExitActions at h
  cases hf : findState st s with
  | none => rw [hf] at h; simp at h
  | some sd =>
    rw [hf] at h
    simp only [List.mem_map] at h
    obtain ⟨a, _, hev⟩ := h
    exact ⟨a, hev.symm⟩

theorem executeOnEnterActions_mem (st : List (String × StateData P A)) (s : String)
    (ev : Effect P A) (h : ev ∈ executeOnEnterActions st s) :
    ∃ a, ev = Effect.enterAct a := by
  unfold executeOnEnterActions at h
  cases hf : findState st s with
  | none => rw [hf] at h; simp at h
  | some sd =>
    rw [hf] at h
    simp only [List.mem_map] at h
    obtain ⟨a, _, hev⟩ := h
    exact ⟨a, hev.symm⟩

theorem failTraces_mem (env : P → E → Bool) (e : E) :
    ∀ (l : List (Transition P A)) (ev : Effect P A), ev ∈ failTraces env e l →
      ∃ p, ev = Effect.evalPred p ∧ ∃ t' ∈ l, p ∈ t'.predicates := by
  intro l
  induction l with
  | nil => intro ev h; simp [failTraces] at h
  | cons t rest ih =>
    intro ev h
    simp only [failTraces] at h
    rcases List.mem_append.mp h with h1 | h2
    · obtain ⟨p, rfl, hp⟩ := predTrace_mem env e t ev h1
      exact ⟨p, rfl, t, by simp, hp⟩
    · obtain ⟨p, rfl, t', ht', hp⟩ := ih ev h2
      exact ⟨p, rfl, t', by simp [ht'], hp⟩

theorem processLoop_append_fail (env : P → E → Bool) (m : FSM P A) (e : E) :
    ∀ (pre ts : List (Transition P A)),
      (∀ t' ∈ pre, (evalPreds env e t'.predicates).1 = false) →
      processLoop env m e (pre ++ ts) =
        ((processLoop env m e ts).1,
          failTraces env e pre ++ (processLoop env m e ts).2) := by
  intro pre
  induction pre with
  | nil => intro ts _; simp [failTraces]
  | cons t rest ih =>
    intro ts h
    have ht : (evalPreds env e t.predicates).1 = false := h t (by simp)
    have hrest := ih ts (fun t' ht' => h t' (List.mem_cons_of_mem t ht'))
    simp [processLoop, ht, hrest, failTraces, List.append_assoc]

theorem process_no_match (env : P → E → Bool) (e : E) (m : FSM P A) (sd : StateData P A)
    (hinit : m.has_initial_state = true)
    (hcur : findState m.states m.current_state = some sd)
    (hall : ∀ t' ∈ sd.transitions, (evalPreds env e t'.predicates).1 = false) :
    m.process env e = (.ok (false, m), failTraces env e sd.transitions) := by
  have hstep := processLoop_append_fail env m e sd.transitions [] hall
  simp [processLoop] at hstep
  simp [FSM.process, hinit, hcur, hstep]

theorem process_first_match (env : P → E → Bool) (e : E) (m : FSM P A)
    (sd : StateData P A) (pre post : List (Transition P A)) (t : Transition P A)
    (hinit : m.has_initial_state = true)
    (hcur : findState m.states m.current_state = some sd)
    (htr : sd.transitions = pre ++ t :: post)
    (hpre : ∀ t' ∈ pre, (evalPreds env e t'.predicates).1 = false)
    (ht : (evalPreds env e t.predicates).1 = true)
    (htgt : t.target_state ≠ "")
    (hreg : (findState m.states t.target_state).isSome) :
    m.process env e =
      (.ok (true, if m.current_state = t.target_state then m
          else ⟨m.states, t.target_state, m.has_initial_state⟩),
        failTraces env e pre ++ predTrace env e t ++ t.actions.map Effect.transAct ++
          (if m.current_state = t.target_state then []
           else executeOnExitActions m.states m.current_state ++
             Effect.setState t.target_state ::
               executeOnEnterActions m.states t.target_state)) := by
  have hstep := processLoop_append_fail env m e pre (t :: post) hpre
  obtain ⟨td, htd⟩ := Option.isSome_iff_exists.mp hreg
  by_cases hc : m.current_state = t.target_state
  · have htd2 : findState m.states m.current_state = some td := by rw [hc]; exact htd
    rw [hcur] at htd2
    obtain rfl : sd = td := Option.some.inj htd2
    simp [FSM.process, hinit, hcur, htr, hstep, processLoop, ht, htgt, htd, hc,
      List.append_assoc]
  · simp [FSM.process, hinit, hcur, htr, hstep, processLoop, ht, htgt, htd, hc,
      List.append_assoc]

theorem process_first_match_bad_target (env : P → E → Bool) (e : E) (m : FSM P A)
    (sd : StateData P A) (pre post : List (Transition P A)) (t : Transition P A)
    (hinit : m.has_initial_state = true)
    (hcur : findState m.states m.current_state = some sd)
    (htr : sd.transitions = pre ++ t :: post)
    (hpre : ∀ t' ∈ pre, (evalPreds env e t'.predicates).1 = false)
    (ht : (evalPreds env e t.predicates).1 = true)
    (hbad : t.target_state = "" ∨
      (t.target_state ≠ "" ∧ findState m.states t.target_state = none)) :
    m.process env e =
      (.error (if t.target_state = "" then
          FSMError.invalidState "Transition has no target state"
        else FSMError.stateNotFound t.target_state),
        failTraces env e pre ++ predTrace env e t) := by
  have hstep := processLoop_append_fail env m e pre (t :: post) hpre
  rcases hbad with hb | ⟨hb1, hb2⟩
  · simp [FSM.process, hinit, hcur, htr, hstep, processLoop, ht, hb]
  · simp [FSM.process, hinit, hcur, htr, hstep, processLoop, ht, hb1, hb2]

theorem processLoop_ok (env : P → E → Bool) (m : FSM P A) (e : E) :
    ∀ (ts : List (Transition P A)) (b : Bool) (m2 : FSM P A),
      (processLoop env m e ts).1 = .ok (b, m2) →
      m2.states = m.states ∧ m2.has_initial_state = m.has_initial_state ∧
        (m2.current_state = m.current_state ∨
          (findState m.states m2.current_state).isSome) := by
  intro ts
  induction ts with
  | nil =>
    intro b m2 h
    simp [processLoop] at h
    rw [← h.2]
    exact ⟨rfl, rfl, Or.inl rfl⟩
  | cons t rest ih =>
    intro b m2 h
    cases hp : (evalPreds env e t.predicates).1 with
    | false =>
      simp [processLoop, hp] at h
      exact ih b m2 h
    | true =>
      by_cases hT : t.target_state = ""
      · simp [processLoop, hp, hT] at h
      · cases hf : findState m.states t.target_state with
        | none => simp [processLoop, hp, hT, hf] at h
        | some td =>
          by_cases hc : m.current_state = t.target_state
          · simp [processLoop, hp, hT, hf, hc] at h
            rw [← h.2]
            exact ⟨rfl, rfl, Or.inl rfl⟩
          · simp [processLoop, hp, hT, hf, hc] at h
            rw [← h.2]
            exact ⟨rfl, rfl, Or.inr (by simp [hf])⟩

theorem processLoop_stateNotFound (env : P → E → Bool) (m : FSM P A) (e : E) :
    ∀ (ts : List (Transition P A)) (s : String),
      (processLoop env m e ts).1 = .error (.stateNotFound s) →
      findState m.states s = none := by
  intro ts
  induction ts with
  | nil => intro s h; simp [processLoop] at h
  | cons t rest ih =>
    intro s h
    cases hp : (evalPreds env e t.predicates).1 with
    | false =>
      simp [processLoop, hp] at h
      exact ih s h
    | true =>
      by_cases hT : t.target_state = ""
      · simp [processLoop, hp, hT] at h
      · cases hf : findState m.states t.target_state with
        | none =>
          simp [processLoop, hp, hT, hf] at h
          rw [← h]
          exact hf
        | some td =>
          by_cases hc : m.current_state = t.target_state <;>
            simp [processLoop, hp, hT, hf, hc] at h

theorem findIndex_get (s : String) :
    ∀ (store : List String) (i : Nat), findIndex store s = some i →
      store.get? i = some s := by
  intro store
  induction store with
  | nil => intro i h; simp [findIndex] at h
  | cons x xs ih =>
    intro i h
    by_cases hx : x = s
    · simp [findIndex, hx] at h
      rw [← h]
      simp [hx]
    · simp [findIndex, hx, Option.map_eq_some'] at h
      obtain ⟨j, hj, rfl⟩ := h
      simpa using ih j hj

theorem findIndex_lt_length (s : String) :
    ∀ (store : List String) (i : Nat), findIndex store s = some i →
      i < store.length := by
  intro store
  induction store with
  | nil => intro i h; simp [findIndex] at h
  | cons x xs ih =>
    intro i h
    by_cases hx : x = s
    · simp [findIndex, hx] at h
      rw [← h]
      simp
    · simp [findIndex, hx, Option.map_eq_some'] at h
      obtain ⟨j, hj, rfl⟩ := h
      simpa using ih j hj

theorem get?_append_singleton (s : String) :
    ∀ l : List String, (l ++ [s]).get? l.length = some s := by
  intro l
  induction l with
  | nil => rfl
  | cons x xs ih => exact ih

theorem findIndex_append_self (s : String) :
    ∀ store : List String, findIndex store s = none →
      findIndex (store ++ [s]) s = some store.length := by
  intro store
  induction store with
  | nil => intro _; simp [findIndex]
  | cons x xs ih =>
    intro h
    by_cases hx : x = s
    · simp [findIndex, hx] at h
    · simp only [findIndex, if_neg hx, Option.map_eq_none'] at h
      rw [List.cons_append]
      simp [findIndex, hx, ih h]

theorem intern_of_findIndex_some (si : StringInterner) (s : String) (i : Nat)
    (h : findIndex si.interned_strings s = some i) :
    si.intern s = (i, si) := by
  simp [StringInterner.intern, h]

theorem intern_of_findIndex_none (si : StringInterner) (s : String)
    (h : findIndex si.interned_strings s = none) :
    si.intern s = (si.interned_strings.length, ⟨si.interned_strings ++ [s]⟩) := by
  simp [StringInterner.intern, h]

theorem intern_findIndex (si : StringInterner) (s : String) :
    findIndex (si.intern s).2.interned_strings s = some (si.intern s).1 := by
  cases h : findIndex si.interned_strings s with
  | some i => rw [intern_of_findIndex_some si s i h]; exact h
  | none =>
    rw [intern_of_findIndex_none si s h]
    exact findIndex_append_self s si.interned_strings h

theorem intern_handleText (si : StringInterner) (s : String) :
    (si.intern s).2.handleText (si.intern s).1 = some s := by
  unfold StringInterner.handleText
  cases h : findIndex si.interned_strings s with
  | some i =>
    rw [intern_of_findIndex_some si s i h]
    exact findIndex_get s si.interned_strings i h
  | none =>
    rw [intern_of_findIndex_none si s h]
    exact get?_append_singleton s si.interned_strings

theorem goodFSM_init : goodFSM (FSM.init : FSM P A) := by
  intro h
  simp [FSM.init] at h

theorem addOnEnterAction_flags (m : FSM P A) (s : String) (a : Option A) :
    (m.addOnEnterAction s a).current_state = m.current_state ∧
    (m.addOnEnterAction s a).has_initial_state = m.has_initial_state := by
  cases a <;> exact ⟨rfl, rfl⟩

theorem addOnExitAction_flags (m : FSM P A) (s : String) (a : Option A) :
    (m.addOnExitAction s a).current_state = m.current_state ∧
    (m.addOnExitAction s a).has_initial_state = m.has_initial_state := by
  cases a <;> exact ⟨rfl, rfl⟩

theorem applyOp_good (env : P → E → Bool) (m : FSM P A) (op : Op E P A)
    (h : goodFSM m) : goodFSM (applyOp env m op) := by
  cases op with
  | addTransition f t =>
    intro hinit
    exact addTransition_isSome_mono m f t m.current_state (h hinit)
  | addOnEnter s a =>
    have hgoal : applyOp env m (Op.addOnEnter s a) = m.addOnEnterAction s a := rfl
    rw [hgoal]
    intro hinit
    rw [(addOnEnterAction_flags m s a).1]
    rw [(addOnEnterAction_flags m s a).2] at hinit
    exact addOnEnterAction_isSome_mono m s a m.current_state (h hinit)
  | addOnExit s a =>
    have hgoal : applyOp env m (Op.addOnExit s a) = m.addOnExitAction s a := rfl
    rw [hgoal]
    intro hinit
    rw [(addOnExitAction_flags m s a).1]
    rw [(addOnExitAction_flags m s a).2] at hinit
    exact addOnExitAction_isSome_mono m s a m.current_state (h hinit)
  | setInitialState s =>
    simp only [applyOp]
    cases hfs : findState m.states s with
    | none => simp [FSM.setInitialState, hfs]; exact h
    | some sd =>
      simp only [FSM.setInitialState, hfs]
      intro _
      simp [hfs]
  | setCurrentState s =>
    simp only [applyOp]
    cases hfs : findState m.states s with
    | none => simp [FSM.setCurrentState, hfs]; exact h
    | some sd =>
      simp only [FSM.setCurrentState, hfs]
      intro _
      simp [hfs]
  | process e =>
    simp only [applyOp]
    cases hp : (m.process env e).1 with
    | error err => exact h
    | ok r =>
      obtain ⟨b, m2⟩ := r
      cases hi : m.has_initial_state with
      | false => simp [FSM.process, hi] at hp
      | true =>
        cases hcur : findState m.states m.current_state with
        | none => simp [FSM.process, hi, hcur] at hp
        | some sd =>
          have hp2 : (processLoop env m e sd.transitions).1 = .ok (b, m2) := by
            simpa [FSM.process, hi, hcur] using hp
          obtain ⟨hstates, hflag, hcur2⟩ := processLoop_ok env m e sd.transitions b m2 hp2
          intro _
          rw [hstates]
          rcases hcur2 with hsame | hsome
          · rw [hsame]; exact h hi
          · exact hsome

theorem foldl_applyOp_good (env : P → E → Bool) :
    ∀ (ops : List (Op E P A)) (m : FSM P A), goodFSM m →
      goodFSM (ops.foldl (applyOp env) m) := by
  intro ops
  induction ops with
  | nil => intro m h; exact h
  | cons op rest ih => intro m h; exact ih _ (applyOp_good env m op h)

theorem runOps_good (env : P → E → Bool) (ops : List (Op E P A)) :
    goodFSM (runOps env ops) :=
  foldl_applyOp_good env ops FSM.init goodFSM_init

/-
Claim theorems.
-/

/-- Claim C1: for a machine state with transitions and an event, `process` scans
the transitions in registration order and executes exactly the first one
whose predicates all pass: its actions run, `process` returns true, and
every predicate evaluated during the call belongs to an earlier (failing)
transition or to the winner — no later transition is ever guard-checked. -/
theorem first_definition_wins (env : P → E → Bool) (e : E) (m : FSM P A)
    (sd : StateData P A) (pre post : List (Transition P A)) (t : Transition P A)
    (hinit : m.has_initial_state = true)
    (hcur : findState m.states m.current_state = some sd)
    (htr : sd.transitions = pre ++ t :: post)
    (hpre : ∀ t' ∈ pre, (evalPreds env e t'.predicates).1 = false)
    (ht : (evalPreds env e t.predicates).1 = true)
    (htgt : t.target_state ≠ "")
    (hreg : (findState m.states t.target_state).isSome) :
    (m.process env e).1 = .ok (true, if m.current_state = t.target_state then m
        else ⟨m.states, t.target_state, m.has_initial_state⟩) ∧
    (m.process env e).2 = failTraces env e pre ++ predTrace env e t ++
        t.actions.map Effect.transAct ++
        (if m.current_state = t.target_state then []
         else executeOnExitActions m.states m.current_state ++
           Effect.setState t.target_state ::
             executeOnEnterActions m.states t.target_state) ∧
    ∀ p : P, Effect.evalPred p ∈ (m.process env e).2 →
      (∃ t' ∈ pre, p ∈ t'.predicates) ∨ p ∈ t.predicates := by
  have hmain := process_first_match env e m sd pre post t hinit hcur htr hpre ht htgt hreg
  have htrace : (m.process env e).2 = failTraces env e pre ++ predTrace env e t ++
      t.actions.map Effect.transAct ++
      (if m.current_state = t.target_state then []
       else executeOnExitActions m.states m.current_state ++
         Effect.setState t.target_state ::
           executeOnEnterActions m.states t.target_state) := by rw [hmain]
  refine ⟨by rw [hmain], htrace, ?_⟩
  intro p hp
  rw [htrace] at hp
  simp only [List.mem_append] at hp
  rcases hp with ((hp | hp) | hp) | hp
  · obtain ⟨q, hq, t', ht', hqt⟩ := failTraces_mem env e pre _ hp
    have hpq : p = q := by simpa using hq
    exact Or.inl ⟨t', ht', hpq ▸ hqt⟩
  · obtain ⟨q, hq, hqt⟩ := predTrace_mem env e t _ hp
    have hpq : p = q := by simpa using hq
    exact Or.inr (hpq ▸ hqt)
  · simp only [List.mem_map] at hp
    obtain ⟨a, _, ha⟩ := hp
    exact absurd ha (by simp)
  · by_cases hc : m.current_state = t.target_state
    · rw [if_pos hc] at hp
      simp at hp
    · rw [if_neg hc] at hp
      rcases List.mem_append.mp hp with hp1 | hp2
      · obtain ⟨a, ha⟩ := executeOnExitActions_mem _ _ _ hp1
        exact absurd ha (by simp)
      · rcases List.mem_cons.mp hp2 with hp3 | hp4
        · exact absurd hp3 (by simp)
        · obtain ⟨a, ha⟩ := executeOnEnterActions_mem _ _ _ hp4
          exact absurd ha (by simp)

theorem first_definition_wins_witness :
    (mC1.process envW 1).1 = .ok (true, ⟨mC1.states, "B", true⟩) ∧
    (mC1.process envW 1).2 = [Effect.evalPred 2, Effect.evalPred 1,
      Effect.transAct 200, Effect.setState "B", Effect.enterAct 7] := by
  have h := first_definition_wins envW 1 mC1 ⟨[], [], [tW1, tW2, tW3]⟩ [tW1] [tW3] tW2
    rfl (by decide) (by decide) (by decide) (by decide) (by decide) (by decide)
  constructor
  · rw [h.1, if_neg (show ¬ mC1.current_state = tW2.target_state from by decide)]
    rfl
  · rw [h.2.1]
    decide

/-- Claim C2: a self-transition selected by `process` (target equals current)
runs only the transition's own actions — the trace holds no on-exit, no
on-enter and no state assignment — while `setCurrentState` invoked with
the current state's own name succeeds, skips on-exit, and re-runs that
state's on-enter actions. -/
theorem self_transition_vs_forced_reentry :
    (∀ (env : P → E → Bool) (e : E) (m : FSM P A) (sd : StateData P A)
        (pre post : List (Transition P A)) (t : Transition P A),
      m.has_initial_state = true →
      findState m.states m.current_state = some sd →
      sd.transitions = pre ++ t :: post →
      (∀ t' ∈ pre, (evalPreds env e t'.predicates).1 = false) →
      (evalPreds env e t.predicates).1 = true →
      t.target_state = m.current_state →
      m.current_state ≠ "" →
      (m.process env e).1 = .ok (true, m) ∧
        (m.process env e).2 =
          failTraces env e pre ++ predTrace env e t ++
            t.actions.map Effect.transAct) ∧
    (∀ (m : FSM P A) (sd : StateData P A),
      m.has_initial_state = true →
      findState m.states m.current_state = some sd →
      (m.setCurrentState m.current_state).1 = .ok m ∧
        (m.setCurrentState m.current_state).2 =
          Effect.setState m.current_state ::
            sd.on_enter_actions.map Effect.enterAct) := by
  constructor
  · intro env e m sd pre post t hinit hcur htr hpre ht hself hne
    have htgt : t.target_state ≠ "" := by rw [hself]; exact hne
    have hreg : (findState m.states t.target_state).isSome := by rw [hself, hcur]; rfl
    have hmain := process_first_match env e m sd pre post t hinit hcur htr hpre ht htgt hreg
    have hc : m.current_state = t.target_state := hself.symm
    rw [hmain]
    constructor
    · simp [hc]
    · simp [hc]
  · intro m sd hinit hcur
    have hmeq : (⟨m.states, m.current_state, true⟩ : FSM P A) = m := by
      cases m with
      | mk st cur ini =>
        simp only at hinit
        rw [hinit]
    constructor
    · simp [FSM.setCurrentState, hcur, hmeq]
    · simp [FSM.setCurrentState, hcur, executeOnEnterActions]

theorem self_transition_vs_forced_reentry_witness :
    (mC2.process envW 1).1 = .ok (true, mC2) ∧
    (mC2.setCurrentState "A").1 = .ok mC2 ∧
    (mC2.setCurrentState "A").2 = [Effect.setState "A", Effect.enterAct 7] := by
  have h := self_transition_vs_forced_reentry (E := Nat) (P := Nat) (A := Nat)
  have ha := h.1 envW 1 mC2 ⟨[7], [8], [tW5]⟩ [] [] tW5
    rfl (by decide) (by decide) (by decide) (by decide) (by decide) (by decide)
  have hb := h.2 mC2 ⟨[7], [8], [tW5]⟩ rfl (by decide)
  exact ⟨ha.1, hb.1, hb.2⟩

/-- Claim C3: when the first matching transition's target handle is empty or
absent from the registry, `process` returns the corresponding error and
the call has performed no mutation: the effect trace holds only predicate
evaluations — no transition action, no on-exit, no on-enter, no state
assignment ever happened. -/
theorem undefined_target_aborts (env : P → E → Bool) (e : E) (m : FSM P A)
    (sd : StateData P A) (pre post : List (Transition P A)) (t : Transition P A)
    (hinit : m.has_initial_state = true)
    (hcur : findState m.states m.current_state = some sd)
    (htr : sd.transitions = pre ++ t :: post)
    (hpre : ∀ t' ∈ pre, (evalPreds env e t'.predicates).1 = false)
    (ht : (evalPreds env e t.predicates).1 = true)
    (hbad : t.target_state = "" ∨
      (t.target_state ≠ "" ∧ findState m.states t.target_state = none)) :
    (m.process env e).1 = .error (if t.target_state = "" then
        FSMError.invalidState "Transition has no target state"
      else FSMError.stateNotFound t.target_state) ∧
    (m.process env e).2 = failTraces env e pre ++ predTrace env e t ∧
    ∀ ev ∈ (m.process env e).2, ∃ p, ev = Effect.evalPred p := by
  have hmain := process_first_match_bad_target env e m sd pre post t hinit hcur htr
    hpre ht hbad
  have htrace : (m.process env e).2 = failTraces env e pre ++ predTrace env e t := by
    rw [hmain]
  refine ⟨by rw [hmain], htrace, ?_⟩
  intro ev hev
  rw [htrace] at hev
  rcases List.mem_append.mp hev with h1 | h2
  · obtain ⟨p, hp, _⟩ := failTraces_mem env e pre ev h1
    exact ⟨p, hp⟩
  · obtain ⟨p, hp, _⟩ := predTrace_mem env e t ev h2
    exact ⟨p, hp⟩

theorem undefined_target_aborts_witness :
    (mC3.process envW 1).1 = .error (FSMError.stateNotFound "GHOST") ∧
    (mC3.process envW 1).2 = [Effect.evalPred 2, Effect.evalPred 1] := by
  have h := undefined_target_aborts envW 1 mC3 ⟨[], [9], [tW1, tW4]⟩ [tW1] [] tW4
    rfl (by decide) (by decide) (by decide) (by decide)
    (Or.inr ⟨by decide, by decide⟩)
  constructor
  · rw [h.1, if_neg (show ¬ tW4.target_state = "" from by decide)]
    rfl
  · rw [h.2.1]
    decide

/-- Claim C4: when no transition out of the current state matches the event,
`process` returns false with the machine unchanged and the effect trace
holds only predicate evaluations — no transition action, no on-exit and
no on-enter ran. -/
theorem no_match_returns_false (env : P → E → Bool) (e : E) (m : FSM P A)
    (sd : StateData P A)
    (hinit : m.has_initial_state = true)
    (hcur : findState m.states m.current_state = some sd)
    (hall : ∀ t' ∈ sd.transitions, (evalPreds env e t'.predicates).1 = false) :
    (m.process env e).1 = .ok (false, m) ∧
    ∀ ev ∈ (m.process env e).2, ∃ p, ev = Effect.evalPred p := by
  have hmain := process_no_match env e m sd hinit hcur hall
  have htrace : (m.process env e).2 = failTraces env e sd.transitions := by rw [hmain]
  refine ⟨by rw [hmain], ?_⟩
  intro ev hev
  rw [htrace] at hev
  obtain ⟨p, hp, _⟩ := failTraces_mem env e sd.transitions ev hev
  exact ⟨p, hp⟩

theorem no_match_returns_false_witness :
    (mC4.process envW 5).1 = .ok (false, mC4) ∧
    (mC4.process envW 5).2 = [Effect.evalPred 2, Effect.evalPred 1] := by
  have h := no_match_returns_false envW 5 mC4 ⟨[], [], [tW1, tW2]⟩
    rfl (by decide) (by decide)
  exact ⟨h.1, by decide⟩

/-- Claim C5: on a machine whose initial state was never set, `process` and
`getCurrentState` both fail with the not-initialized error; `process`
performs no effects. -/
theorem uninitialized_operations_fail (env : P → E → Bool) (e : E) (m : FSM P A)
    (h : m.has_initial_state = false) :
    m.process env e = (.error FSMError.notInitialized, []) ∧
    m.getCurrentState = .error FSMError.notInitialized := by
  constructor
  · simp [FSM.process, h]
  · simp [FSM.getCurrentState, h]

theorem uninitialized_operations_fail_witness :
    (FSM.init : FSM Nat Nat).process envW 0 = (.error FSMError.notInitialized, []) ∧
    (FSM.init : FSM Nat Nat).getCurrentState = .error FSMError.notInitialized :=
  uninitialized_operations_fail envW 0 FSM.init rfl

/-- Claim C6: committing a transition creates registry records for its source
and (non-empty) target if absent, and registering an on-enter/on-exit
action creates the named state's record, so a forward-referenced target
can be used by `setInitialState` right after the commit; a name that was
never created errors only at `setInitialState`/`setCurrentState` time. -/
theorem construction_creates_states :
    (∀ (m : FSM P A) (fs : String) (t : Transition P A), t.target_state ≠ "" →
      (findState (m.addTransition fs t).states fs).isSome ∧
      (findState (m.addTransition fs t).states t.target_state).isSome) ∧
    (∀ (m : FSM P A) (s : String) (a : Option A),
      (findState (m.addOnEnterAction s a).states s).isSome ∧
      (findState (m.addOnExitAction s a).states s).isSome) ∧
    (∀ (m : FSM P A) (fs : String) (t : Transition P A), t.target_state ≠ "" →
      ∃ m2, ((m.addTransition fs t).setInitialState t.target_state).1 = .ok m2) ∧
    (∀ (m : FSM P A) (s : String), findState m.states s = none →
      (m.setInitialState s).1 = .error (.invalidState
        ("Cannot set initial state to undefined state: " ++ s)) ∧
      (m.setCurrentState s).1 = .error (.invalidState
        ("Cannot set current state to undefined state: " ++ s))) := by
  refine ⟨?_, ?_, ?_, ?_⟩
  · intro m fs t ht
    exact ⟨addTransition_creates_from m fs t, addTransition_creates_target m fs t ht⟩
  · intro m s a
    exact ⟨addOnEnterAction_creates m s a, addOnExitAction_creates m s a⟩
  · intro m fs t ht
    obtain ⟨td, htd⟩ :=
      Option.isSome_iff_exists.mp (addTransition_creates_target m fs t ht)
    refine ⟨⟨(m.addTransition fs t).states, t.target_state, true⟩, ?_⟩
    simp [FSM.setInitialState, htd]
  · intro m s h
    exact ⟨by simp [FSM.setInitialState, h], by simp [FSM.setCurrentState, h]⟩

theorem construction_creates_states_witness :
    (findState ((FSM.init : FSM Nat Nat).addTransition "A" tW2).states "B").isSome ∧
    ((FSM.init : FSM Nat Nat).setInitialState "GHOST").1 = .error (.invalidState
      "Cannot set initial state to undefined state: GHOST") := by
  constructor
  · exact (construction_creates_states.1 FSM.init "A" tW2 (by decide)).2
  · exact (construction_creates_states.2.2.2 FSM.init "GHOST" (by decide)).1

/-- Claim C7: interning is idempotent and two interned handles are identical
(same backing index) exactly when the interned texts are equal; each
handle dereferences to its interned text. -/
theorem intern_handle_identity (si : StringInterner) (s1 s2 : String) :
    (((si.intern s1).2.intern s2).1 = (si.intern s1).1 ↔ s1 = s2) ∧
    (si.intern s1).2.intern s1 = ((si.intern s1).1, (si.intern s1).2) ∧
    (si.intern s1).2.handleText (si.intern s1).1 = some s1 := by
  have hfi := intern_findIndex si s1
  have hidem := intern_of_findIndex_some (si.intern s1).2 s1 (si.intern s1).1 hfi
  have htext := intern_handleText si s1
  refine ⟨⟨?_, ?_⟩, hidem, htext⟩
  · intro heq
    cases hf2 : findIndex (si.intern s1).2.interned_strings s2 with
    | some j =>
      have h2 := intern_of_findIndex_some (si.intern s1).2 s2 j hf2
      have heq2 : j = (si.intern s1).1 := by rw [h2] at heq; exact heq
      have hg2 : (si.intern s1).2.interned_strings.get? j = some s2 :=
        findIndex_get s2 _ j hf2
      rw [heq2] at hg2
      have htext2 : (si.intern s1).2.interned_strings.get? (si.intern s1).1 = some s1 :=
        htext
      rw [hg2] at htext2
      exact (Option.some.inj htext2).symm
    | none =>
      have h2 := intern_of_findIndex_none (si.intern s1).2 s2 hf2
      have heq2 : (si.intern s1).2.interned_strings.length = (si.intern s1).1 := by
        rw [h2] at heq; exact heq
      have hlt := findIndex_lt_length s1 _ _ hfi
      rw [← heq2] at hlt
      exact absurd hlt (lt_irrefl _)
  · intro hs
    subst hs
    rw [hidem]

/-- Claim C8: a transition with no predicates always passes; otherwise the
check is the conjunction of all predicates, evaluated left-to-right with
short-circuit: given a first failing predicate, exactly the predicates up
to and including it are invoked, and everything after it never runs. -/
theorem predicate_short_circuit (env : P → E → Bool) (e : E) :
    (∀ t : Transition P A, t.predicates = [] → t.predicatesPass env e = true) ∧
    (∀ t : Transition P A,
      t.predicatesPass env e = t.predicates.all (fun p => env p e)) ∧
    (∀ (qs : List P) (p : P) (rs : List P),
      (∀ q ∈ qs, env q e = true) → env p e = false →
      evalPreds env e (qs ++ p :: rs) = (false, qs ++ [p])) ∧
    (∀ ps : List P, (∀ p ∈ ps, env p e = true) → evalPreds env e ps = (true, ps)) := by
  refine ⟨?_, ?_, ?_, ?_⟩
  · intro t ht
    simp [Transition.predicatesPass, ht]
  · intro t
    rw [predicatesPass_eq_evalPreds, evalPreds_fst]
  · intro qs p rs hqs hp
    exact evalPreds_first_false env e p hp qs rs hqs
  · intro ps hps
    exact evalPreds_all_true env e ps hps

theorem predicate_short_circuit_witness :
    Transition.predicatesPass (⟨[], [5], "X"⟩ : Transition Nat Nat) envW 9 = true ∧
    evalPreds envW 1 [1, 2, 3] = (false, [1, 2]) := by
  constructor
  · exact (predicate_short_circuit (A := Nat) envW 9).1 ⟨[], [5], "X"⟩ rfl
  · exact (predicate_short_circuit (A := Nat) envW 1).2.2.1 [1] 2 [3]
      (by decide) (by decide)

/-- Claim C9: in thread-safe mode each public entry point's event trace is one
exclusive lock acquisition, then the body's effects with no lock event
among them, then one release — in particular `process` never releases and
reacquires the lock between its guard check and its state mutation. -/
theorem thread_safe_single_critical_section (env : P → E → Bool) (e : E)
    (m : FSM P A) (s1 s2 : String) :
    (∃ body : List (Effect P A), (m.processMT env e).2 =
      MTEv.lockAcquire :: body.map MTEv.eff ++ [MTEv.lockRelease]) ∧
    (∃ body : List (Effect P A), (m.setInitialStateMT s1).2 =
      MTEv.lockAcquire :: body.map MTEv.eff ++ [MTEv.lockRelease]) ∧
    (∃ body : List (Effect P A), (m.setCurrentStateMT s2).2 =
      MTEv.lockAcquire :: body.map MTEv.eff ++ [MTEv.lockRelease]) ∧
    m.getCurrentStateMT.2 = [MTEv.lockAcquire, MTEv.lockRelease] :=
  ⟨⟨(m.process env e).2, rfl⟩, ⟨(m.setInitialState s1).2, rfl⟩,
    ⟨(m.setCurrentState s2).2, rfl⟩, rfl⟩

/-- Claim C10: every machine reachable through the public API keeps the
invariant that once initialized its current-state handle is a key of the
registry, and consequently `process` can never fail with the
internal-consistency error naming the current state. -/
theorem current_state_always_registered (env : P → E → Bool)
    (ops : List (Op E P A)) :
    goodFSM (runOps env ops) ∧
    ∀ e, (runOps env ops).has_initial_state = true →
      ((runOps env ops).process env e).1 ≠
        .error (.stateNotFound (runOps env ops).current_state) := by
  refine ⟨runOps_good env ops, ?_⟩
  intro e hinit hcontra
  have hsome := runOps_good env ops hinit
  obtain ⟨sd, hsd⟩ := Option.isSome_iff_exists.mp hsome
  have hloop : (processLoop env (runOps env ops) e sd.transitions).1 =
      .error (.stateNotFound (runOps env ops).current_state) := by
    simpa [FSM.process, hinit, hsd] using hcontra
  have hnone := processLoop_stateNotFound env (runOps env ops) e sd.transitions
    (runOps env ops).current_state hloop
  rw [hsd] at hnone
  exact Option.noConfusion hnone

theorem current_state_always_registered_witness :
    ((runOps envW opsW).process envW 1).1 ≠
      .error (.stateNotFound (runOps envW opsW).current_state) :=
  (current_state_always_registered envW opsW).2 1 (by decide)

end fsmgine
